import Mathlib

/-!
Verification development for the embedding-and-compare script `BERT.py`.

The script reads two strings, embeds each with a pretrained encoder
(`bert-base-uncased`), computes the cosine similarity of the two mean-pooled
embeddings, and prints a five-line report.

The pretrained encoder and its tokenizer are external dependencies; they are
modelled abstractly as an `Encoder` structure whose fields record exactly the
shape facts the script relies on: the tokenizer produces a nonempty token
sequence (BERT always adds the special tokens CLS and SEP), and the forward
pass produces one hidden-state row per token, each row of width `hiddenDim`.
Hidden states are modelled as exact rationals; the similarity score lives
in the reals because its definition divides by square roots of norms.
-/

namespace BERT

/-- Dot product of two numeric vectors, truncating to the shorter length. -/
def dot (a b : List ℚ) : ℚ :=
  (List.zipWith (· * ·) a b).sum

/-- Squared Euclidean norm of a vector. -/
def normSq (a : List ℚ) : ℚ :=
  dot a a

/-- Cosine similarity of two vectors, as computed by
`sklearn.metrics.pairwise.cosine_similarity` on the two embedding rows:
the dot product divided by the product of the Euclidean magnitudes.
(Division by zero yields zero, matching the library's degenerate behaviour
of returning a zero similarity for a zero-magnitude row.) -/
noncomputable def cosine_similarity (a b : List ℚ) : ℝ :=
  (dot a b : ℝ) / (Real.sqrt (normSq a : ℝ) * Real.sqrt (normSq b : ℝ))

/-- Sum of a batch of rows, componentwise (`torch.sum` over the token
dimension, the first step of `.mean(dim=1)`). -/
def vsum : List (List ℚ) → List ℚ
  | [] => []
  | [r] => r
  | r :: rs => List.zipWith (· + ·) r (vsum rs)

/-- Mean of a batch of rows across the batch (token) dimension:
`last_hidden_state.mean(dim=1)` for a single-example batch. -/
def meanPool (rows : List (List ℚ)) : List ℚ :=
  (vsum rows).map (fun x => x / (rows.length : ℚ))

/-- Abstract model of the pretrained encoder and its paired tokenizer.
`tokenize` maps raw text to token ids; `forward` maps token ids to the
final-layer hidden states, one row per token, each of width `hiddenDim`.
The three proof fields record the shape guarantees of the BERT tokenizer
and model that the script relies on. -/
structure Encoder where
  hiddenDim : ℕ
  tokenize : String → List ℕ
  forward : List ℕ → List (List ℚ)
  tokenize_ne : ∀ s : String, tokenize s ≠ []
  forward_length : ∀ ts : List ℕ, (forward ts).length = ts.length
  forward_width : ∀ ts : List ℕ, ∀ r ∈ forward ts, r.length = hiddenDim

/-- The script's `get_embedding`: tokenize the text, run the forward pass,
and mean-pool the final-layer hidden states across the token dimension.
The leading batch dimension of the tensor (always of size 1 here) is
dropped: the result is the single embedding row. -/
def get_embedding (enc : Encoder) (text : String) : List ℚ :=
  meanPool (enc.forward (enc.tokenize text))

/-- Modelled from the spec: "take the model's final-layer per-token
representations; average them across the token dimension to obtain one
vector per input". Component `j` of the result is the arithmetic mean of
the `j`-th components of the per-token rows, for each `j` below the hidden
dimension. Used only to compare against `get_embedding`. -/
def specMeanEmbedding (enc : Encoder) (text : String) : List ℚ :=
  let rows := enc.forward (enc.tokenize text)
  (List.range enc.hiddenDim).map
    (fun j => (rows.map (fun r => r.getD j 0)).sum / (rows.length : ℚ))

/-- One line of the printed report. `sentenceLine s` stands for the printed
line `Sentence: {s}`, `embeddingLine v` for `Embedding: {v.tolist()} …`,
`keywordLine k` for `Keyword: {k}`, and `scoreLine x` for
`Similarity Score: {x:.4f}` (the rendering of the real number `x` with four
decimal places is abstracted into the constructor). -/
inductive OutLine where
  | sentenceLine (s : String)
  | embeddingLine (v : List ℚ)
  | keywordLine (k : String)
  | scoreLine (x : ℝ)

/-- The report printed by `main`, line by line in program order: the
sentence, the first ten components of its embedding, the keyword, the first
ten components of its embedding, and the similarity score. -/
noncomputable def report (enc : Encoder) (sentence keyword : String) : List OutLine :=
  let sentence_embedding := get_embedding enc sentence
  let keyword_embedding := get_embedding enc keyword
  let similarity_score := cosine_similarity sentence_embedding keyword_embedding
  [OutLine.sentenceLine sentence,
   OutLine.embeddingLine (sentence_embedding.take 10),
   OutLine.keywordLine keyword,
   OutLine.embeddingLine (keyword_embedding.take 10),
   OutLine.scoreLine similarity_score]

/-- Observable step of `main`, in the order the statements execute. -/
inductive Ev where
  | readSentence
  | readKeyword
  | loadTokenizer
  | loadModel
  | embedCall (text : String)
  | similarityCall
  | printReport
deriving DecidableEq

/-- Instrumented run of `main`: the sequence of observable steps paired
with the printed report. The step list follows the statement order of the
source: read both inputs, load the tokenizer, load the model, embed the
sentence, embed the keyword, compute the similarity, print the five lines. -/
noncomputable def mainRun (enc : Encoder) (sentence keyword : String) :
    List Ev × List OutLine :=
  ([Ev.readSentence, Ev.readKeyword, Ev.loadTokenizer, Ev.loadModel,
    Ev.embedCall sentence, Ev.embedCall keyword, Ev.similarityCall,
    Ev.printReport, Ev.printReport, Ev.printReport, Ev.printReport,
    Ev.printReport],
   report enc sentence keyword)

/-- Recognizer for the tokenizer-loading step. -/
def isLoadTokenizer : Ev → Bool
  | Ev.loadTokenizer => true
  | _ => false

/-- Recognizer for the model-loading step. -/
def isLoadModel : Ev → Bool
  | Ev.loadModel => true
  | _ => false

/-- Error-propagation model of `main`. Loading the pretrained model, each
embedding call, and the similarity computation may fail (model download
failure, tokenizer mismatch, library error on degenerate input); the driver
contains no handler, so the first failure is the result of the whole run.
The non-failing path produces exactly the report. -/
def runFallible (load : Except String Encoder)
    (embed : Encoder → String → Except String (List ℚ))
    (sim : List ℚ → List ℚ → Except String ℝ)
    (sentence keyword : String) : Except String (List OutLine) :=
  match load with
  | Except.error e => Except.error e
  | Except.ok enc =>
    match embed enc sentence with
    | Except.error e => Except.error e
    | Except.ok sentence_embedding =>
      match embed enc keyword with
      | Except.error e => Except.error e
      | Except.ok keyword_embedding =>
        match sim sentence_embedding keyword_embedding with
        | Except.error e => Except.error e
        | Except.ok similarity_score =>
          Except.ok
            [OutLine.sentenceLine sentence,
             OutLine.embeddingLine (sentence_embedding.take 10),
             OutLine.keywordLine keyword,
             OutLine.embeddingLine (keyword_embedding.take 10),
             OutLine.scoreLine similarity_score]

/-- Concrete encoder used to evaluate the theorems on closed inputs:
hidden dimension 12, a single token per input, and a forward pass sending
token `i` to a fixed twelve-component row depending on `i`. -/
def wEnc : Encoder where
  hiddenDim := 12
  tokenize := fun _ => [0]
  forward := fun ts =>
    ts.map (fun i : ℕ => [(i : ℚ) + 1, 2, 3, 4, 5, 6, 7, 8, 9, 10, 11, 12])
  tokenize_ne := fun s => by simp
  forward_length := fun ts => by simp
  forward_width := fun ts r hr => by
    simp only [List.mem_map] at hr
    obtain ⟨i, hi, rfl⟩ := hr
    simp

/-! ### Basic lemmas about the vector operations -/

theorem dot_nil_left (b : List ℚ) : dot [] b = 0 := by
  simp [dot]

theorem dot_nil_right (a : List ℚ) : dot a [] = 0 := by
  cases a <;> simp [dot]

theorem dot_cons (x y : ℚ) (a b : List ℚ) :
    dot (x :: a) (y :: b) = x * y + dot a b := by
  simp [dot]

theorem dot_comm (a b : List ℚ) : dot a b = dot b a := by
  induction a generalizing b with
  | nil => simp [dot_nil_left, dot_nil_right]
  | cons x a ih =>
    cases b with
    | nil => simp [dot_nil_left, dot_nil_right]
    | cons y b => rw [dot_cons, dot_cons, ih, mul_comm]

theorem normSq_cons (x : ℚ) (a : List ℚ) :
    normSq (x :: a) = x * x + normSq a := by
  simp [normSq, dot_cons]

theorem normSq_nonneg (a : List ℚ) : 0 ≤ normSq a := by
  induction a with
  | nil => simp [normSq, dot]
  | cons x a ih =>
    rw [normSq_cons]
    nlinarith [mul_self_nonneg x]

/-- Cauchy–Schwarz inequality for the list dot product, proved by
induction using the Lagrange-style bound at each step. -/
theorem dot_sq_le (a b : List ℚ) : dot a b ^ 2 ≤ normSq a * normSq b := by
  induction a generalizing b with
  | nil =>
    simp [dot_nil_left, normSq, dot]
  | cons x a ih =>
    cases b with
    | nil =>
      simp [dot_nil_right, normSq, dot]
    | cons y b =>
      have h1 := ih b
      have ha := normSq_nonneg a
      have hb := normSq_nonneg b
      rw [dot_cons, normSq_cons, normSq_cons]
      rcases eq_or_lt_of_le hb with hb0 | hb0
      · have hd : dot a b = 0 := by
          have : dot a b ^ 2 ≤ 0 := by rw [← hb0] at h1; linarith [h1]
          nlinarith [sq_nonneg (dot a b)]
        rw [hd, ← hb0]
        nlinarith [mul_self_nonneg y, mul_self_nonneg x, ha]
      · nlinarith [sq_nonneg (x * normSq b - y * dot a b),
          sq_nonneg (x * y), mul_pos hb0 hb0, mul_nonneg ha hb]

/-! ### Lemmas about mean pooling -/

theorem getD_zipWith_add (a : List ℚ) : ∀ (b : List ℚ) (j : ℕ),
    j < a.length → j < b.length →
    (List.zipWith (· + ·) a b).getD j 0 = a.getD j 0 + b.getD j 0 := by
  induction a with
  | nil => intro b j hja hjb; simp at hja
  | cons x a ih =>
    intro b j hja hjb
    cases b with
    | nil => simp at hjb
    | cons y b =>
      cases j with
      | zero => simp
      | succ j =>
        simp only [List.zipWith_cons_cons, List.getD_cons_succ]
        exact ih b j (by simpa using hja) (by simpa using hjb)

theorem vsum_length (H : ℕ) : ∀ rows : List (List ℚ), rows ≠ [] →
    (∀ r ∈ rows, r.length = H) → (vsum rows).length = H := by
  intro rows
  induction rows with
  | nil => intro hne; exact absurd rfl hne
  | cons r rs ih =>
    intro _ hw
    cases rs with
    | nil => simpa [vsum] using hw r (by simp)
    | cons r2 rs2 =>
      have h1 : r.length = H := hw r (by simp)
      have h2 : (vsum (r2 :: rs2)).length = H :=
        ih (by simp) (fun q hq => hw q (List.mem_cons_of_mem r hq))
      simp only [vsum]
      rw [List.length_zipWith, h1, h2, min_self]

theorem vsum_getD (H : ℕ) : ∀ rows : List (List ℚ), rows ≠ [] →
    (∀ r ∈ rows, r.length = H) → ∀ j : ℕ, j < H →
    (vsum rows).getD j 0 = (rows.map (fun r => r.getD j 0)).sum := by
  intro rows
  induction rows with
  | nil => intro hne; exact absurd rfl hne
  | cons r rs ih =>
    intro _ hw j hj
    cases rs with
    | nil => simp [vsum]
    | cons r2 rs2 =>
      have h1 : r.length = H := hw r (by simp)
      have h2 : (vsum (r2 :: rs2)).length = H :=
        vsum_length H _ (by simp) (fun q hq => hw q (List.mem_cons_of_mem r hq))
      have hrec := ih (by simp) (fun q hq => hw q (List.mem_cons_of_mem r hq)) j hj
      simp only [vsum]
      rw [getD_zipWith_add r (vsum (r2 :: rs2)) j (by rw [h1]; exact hj)
        (by rw [h2]; exact hj), hrec]
      simp

theorem meanPool_eq_spec (H : ℕ) (rows : List (List ℚ)) (hne : rows ≠ [])
    (hw : ∀ r ∈ rows, r.length = H) :
    meanPool rows = (List.range H).map
      (fun j => (rows.map (fun r => r.getD j 0)).sum / (rows.length : ℚ)) := by
  apply List.ext_getElem
  · simp [meanPool, vsum_length H rows hne hw]
  · intro j hj1 hj2
    have hjH : j < H := by
      simpa [meanPool, vsum_length H rows hne hw] using hj1
    have hv : j < (vsum rows).length := by
      rw [vsum_length H rows hne hw]; exact hjH
    have hgd := vsum_getD H rows hne hw j hjH
    rw [List.getD_eq_getElem _ _ hv] at hgd
    simp only [meanPool, List.getElem_map, List.getElem_range]
    rw [hgd]

theorem forward_ne_nil (enc : Encoder) (text : String) :
    enc.forward (enc.tokenize text) ≠ [] := by
  intro h
  apply enc.tokenize_ne text
  have hlen := enc.forward_length (enc.tokenize text)
  rw [h] at hlen
  simp only [List.length_nil] at hlen
  exact List.eq_nil_of_length_eq_zero hlen.symm

theorem length_get_embedding (enc : Encoder) (text : String) :
    (get_embedding enc text).length = enc.hiddenDim := by
  simp [get_embedding, meanPool,
    vsum_length enc.hiddenDim _ (forward_ne_nil enc text)
      (enc.forward_width (enc.tokenize text))]

/-! ### Lemmas about cosine similarity -/

theorem abs_cosine_similarity_le_one (a b : List ℚ) :
    |cosine_similarity a b| ≤ 1 := by
  have hna : (0 : ℝ) ≤ ((normSq a : ℚ) : ℝ) := by exact_mod_cast normSq_nonneg a
  have hD : ((dot a b : ℚ) : ℝ) ^ 2 ≤
      ((normSq a : ℚ) : ℝ) * ((normSq b : ℚ) : ℝ) := by
    exact_mod_cast dot_sq_le a b
  have habs : |((dot a b : ℚ) : ℝ)| ≤
      Real.sqrt ((normSq a : ℚ) : ℝ) * Real.sqrt ((normSq b : ℚ) : ℝ) := by
    rw [← Real.sqrt_sq_eq_abs, ← Real.sqrt_mul hna]
    exact Real.sqrt_le_sqrt hD
  have hprod : (0 : ℝ) ≤
      Real.sqrt ((normSq a : ℚ) : ℝ) * Real.sqrt ((normSq b : ℚ) : ℝ) :=
    mul_nonneg (Real.sqrt_nonneg _) (Real.sqrt_nonneg _)
  rcases eq_or_lt_of_le hprod with h0 | hpos
  · unfold cosine_similarity
    rw [← h0, div_zero]
    simp
  · unfold cosine_similarity
    rw [abs_div, abs_of_pos hpos]
    exact (div_le_one hpos).mpr habs

/-! ### Claim theorems -/

/-- Claim C1: for every input string, `get_embedding` tokenizes the string,
runs one forward pass through the encoder, takes the final-layer per-token
hidden states, and returns their mean across the token dimension as a
single fixed-length vector: it agrees with the spec-side componentwise
mean `specMeanEmbedding` and its length is the encoder's hidden dimension. -/
theorem get_embedding_is_token_mean (enc : Encoder) (text : String) :
    get_embedding enc text = specMeanEmbedding enc text ∧
    (get_embedding enc text).length = enc.hiddenDim := by
  constructor
  · unfold get_embedding specMeanEmbedding
    exact meanPool_eq_spec enc.hiddenDim _ (forward_ne_nil enc text)
      (enc.forward_width (enc.tokenize text))
  · exact length_get_embedding enc text

/-- Claim C2: for every pair of equal-length vectors, the similarity
computation returns the dot product divided by the product of the
magnitudes, and this scalar lies in the interval from -1 to 1. -/
theorem cosine_similarity_contract (a b : List ℚ) (h : a.length = b.length) :
    cosine_similarity a b =
      ((dot a b : ℚ) : ℝ) /
        (Real.sqrt ((normSq a : ℚ) : ℝ) * Real.sqrt ((normSq b : ℚ) : ℝ)) ∧
    -1 ≤ cosine_similarity a b ∧ cosine_similarity a b ≤ 1 :=
  ⟨rfl, (abs_le.mp (abs_cosine_similarity_le_one a b)).1,
    (abs_le.mp (abs_cosine_similarity_le_one a b)).2⟩

/-- Witness for C2 at the concrete pair `[1, 0]`, `[0, 1]`. -/
theorem cosine_similarity_contract_witness :
    ([1, 0] : List ℚ).length = ([0, 1] : List ℚ).length ∧
    (-1 ≤ cosine_similarity [1, 0] [0, 1] ∧
      cosine_similarity [1, 0] [0, 1] ≤ 1) :=
  ⟨rfl, (cosine_similarity_contract [1, 0] [0, 1] rfl).2.1,
    (cosine_similarity_contract [1, 0] [0, 1] rfl).2.2⟩

/-- Claim C3: if the two input strings are identical, the similarity score
is 1 (exactly, in the exact-arithmetic model, provided the shared embedding
is not the degenerate zero vector), and the fifth printed line of the
report is the score line carrying 1. -/
theorem identical_inputs_score_one (enc : Encoder) (sentence keyword : String)
    (heq : sentence = keyword)
    (hnz : normSq (get_embedding enc sentence) ≠ 0) :
    cosine_similarity (get_embedding enc sentence)
      (get_embedding enc keyword) = 1 ∧
    (report enc sentence keyword).getD 4 (OutLine.scoreLine 0) =
      OutLine.scoreLine 1 := by
  subst heq
  have hone : cosine_similarity (get_embedding enc sentence)
      (get_embedding enc sentence) = 1 := by
    unfold cosine_similarity
    have hd : dot (get_embedding enc sentence) (get_embedding enc sentence) =
        normSq (get_embedding enc sentence) := rfl
    rw [hd, Real.mul_self_sqrt (by exact_mod_cast normSq_nonneg _)]
    exact div_self (by exact_mod_cast hnz)
  exact ⟨hone, by simp [report, hone]⟩

/-- Witness for C3 at the concrete encoder `wEnc` with both inputs "seo". -/
theorem identical_inputs_score_one_witness :
    normSq (get_embedding wEnc "seo") ≠ 0 ∧
    cosine_similarity (get_embedding wEnc "seo") (get_embedding wEnc "seo") = 1 := by
  have hnz : normSq (get_embedding wEnc "seo") ≠ 0 := by
    simp [get_embedding, wEnc, meanPool, vsum, normSq, dot]
    norm_num
  exact ⟨hnz, (identical_inputs_score_one wEnc "seo" "seo" rfl hnz).1⟩

/-- Claim C4: the similarity computation is symmetric in its two vector
arguments, so swapping the sentence and keyword embeddings leaves the
similarity score unchanged. -/
theorem similarity_symmetric :
    (∀ a b : List ℚ, cosine_similarity a b = cosine_similarity b a) ∧
    (∀ (enc : Encoder) (sentence keyword : String),
      cosine_similarity (get_embedding enc keyword)
          (get_embedding enc sentence) =
        cosine_similarity (get_embedding enc sentence)
          (get_embedding enc keyword)) := by
  have key : ∀ a b : List ℚ, cosine_similarity a b = cosine_similarity b a := by
    intro a b
    unfold cosine_similarity
    rw [dot_comm, mul_comm]
  exact ⟨key, fun enc sentence keyword => key _ _⟩

/-- Claim C5: for every pair of inputs the driver prints exactly the fixed
five-line report, in order: the sentence, the first ten components of its
embedding, the keyword, the first ten components of its embedding, and the
similarity score (rendered with four decimal places). -/
theorem report_is_fixed_five_lines (enc : Encoder) (sentence keyword : String) :
    report enc sentence keyword =
      [OutLine.sentenceLine sentence,
       OutLine.embeddingLine ((get_embedding enc sentence).take 10),
       OutLine.keywordLine keyword,
       OutLine.embeddingLine ((get_embedding enc keyword).take 10),
       OutLine.scoreLine (cosine_similarity (get_embedding enc sentence)
         (get_embedding enc keyword))] ∧
    (report enc sentence keyword).length = 5 :=
  ⟨rfl, rfl⟩

/-- Claim C6: every truncated embedding preview printed by the driver
contains exactly ten numeric values, because the hidden dimension exceeds
ten. -/
theorem preview_has_ten_components (enc : Encoder) (sentence keyword : String)
    (h : 10 < enc.hiddenDim) :
    ∀ v : List ℚ, OutLine.embeddingLine v ∈ report enc sentence keyword →
      v.length = 10 := by
  intro v hv
  simp only [report, List.mem_cons, List.not_mem_nil, or_false,
    OutLine.embeddingLine.injEq, reduceCtorEq, false_or, or_false] at hv
  rcases hv with rfl | rfl <;>
    · rw [List.length_take, length_get_embedding]
      exact min_eq_left (Nat.le_of_lt h)

/-- Witness for C6 at the concrete encoder `wEnc` (hidden dimension 12). -/
theorem preview_has_ten_components_witness :
    10 < wEnc.hiddenDim ∧
    (∀ v : List ℚ, OutLine.embeddingLine v ∈ report wEnc "cat" "mat" →
      v.length = 10) :=
  ⟨by decide, preview_has_ten_components wEnc "cat" "mat" (by decide)⟩

/-- Claim C7: the embedding vector length equals the encoder's hidden
dimension on every call, and is therefore the same for both calls in a
run, regardless of the input strings. -/
theorem embedding_dimension_invariant (enc : Encoder) (sentence keyword : String) :
    (get_embedding enc sentence).length = enc.hiddenDim ∧
    (get_embedding enc sentence).length = (get_embedding enc keyword).length := by
  refine ⟨length_get_embedding enc sentence, ?_⟩
  rw [length_get_embedding, length_get_embedding]

/-- Claim C8: every failure of the fallible stages of the run (model
loading, either embedding call, the similarity computation) propagates to
the result of the whole run untouched: nothing is caught, retried, or
translated, and the non-failing path produces exactly the report. -/
theorem failures_propagate_unhandled :
    (∀ (e : String) (embed : Encoder → String → Except String (List ℚ))
      (sim : List ℚ → List ℚ → Except String ℝ) (sentence keyword : String),
      runFallible (Except.error e) embed sim sentence keyword =
        Except.error e) ∧
    (∀ (enc : Encoder) (embed : Encoder → String → Except String (List ℚ))
      (sim : List ℚ → List ℚ → Except String ℝ) (sentence keyword e : String),
      embed enc sentence = Except.error e →
      runFallible (Except.ok enc) embed sim sentence keyword =
        Except.error e) ∧
    (∀ (enc : Encoder) (embed : Encoder → String → Except String (List ℚ))
      (sim : List ℚ → List ℚ → Except String ℝ) (sentence keyword e : String)
      (v : List ℚ),
      embed enc sentence = Except.ok v → embed enc keyword = Except.error e →
      runFallible (Except.ok enc) embed sim sentence keyword =
        Except.error e) ∧
    (∀ (enc : Encoder) (embed : Encoder → String → Except String (List ℚ))
      (sim : List ℚ → List ℚ → Except String ℝ) (sentence keyword e : String)
      (v w : List ℚ),
      embed enc sentence = Except.ok v → embed enc keyword = Except.ok w →
      sim v w = Except.error e →
      runFallible (Except.ok enc) embed sim sentence keyword =
        Except.error e) ∧
    (∀ (enc : Encoder) (sentence keyword : String),
      runFallible (Except.ok enc)
        (fun enc2 t => Except.ok (get_embedding enc2 t))
        (fun a b => Except.ok (cosine_similarity a b)) sentence keyword =
        Except.ok (report enc sentence keyword)) := by
  refine ⟨?_, ?_, ?_, ?_, ?_⟩
  · intro e embed sim sentence keyword; rfl
  · intro enc embed sim sentence keyword e h
    simp [runFallible, h]
  · intro enc embed sim sentence keyword e v h1 h2
    simp [runFallible, h1, h2]
  · intro enc embed sim sentence keyword e v w h1 h2 h3
    simp [runFallible, h1, h2, h3]
  · intro enc sentence keyword; rfl

/-- Witness for C8: a failed model load and a failed embedding call each
surface as the run's result. -/
theorem failures_propagate_unhandled_witness :
    runFallible (Except.error "model download failure")
      (fun enc2 t => Except.ok (get_embedding enc2 t))
      (fun a b => Except.ok (cosine_similarity a b)) "cat" "mat" =
      Except.error "model download failure" ∧
    runFallible (Except.ok wEnc)
      (fun _ _ => Except.error "tokenizer mismatch")
      (fun a b => Except.ok (cosine_similarity a b)) "cat" "mat" =
      Except.error "tokenizer mismatch" :=
  ⟨failures_propagate_unhandled.1 "model download failure" _ _ "cat" "mat",
   failures_propagate_unhandled.2.1 wEnc _ _ "cat" "mat" "tokenizer mismatch"
     rfl⟩

/-- Claim C9: the run is strictly sequential: read the two inputs, load the
tokenizer and the model exactly once each, embed the sentence, embed the
keyword, compute the similarity, then print the report; both embedding
calls receive the same loaded encoder, and the printed output is exactly
the report of that encoder. -/
theorem execution_strictly_sequential (enc : Encoder) (sentence keyword : String) :
    (mainRun enc sentence keyword).1 =
      [Ev.readSentence, Ev.readKeyword, Ev.loadTokenizer, Ev.loadModel,
       Ev.embedCall sentence, Ev.embedCall keyword, Ev.similarityCall,
       Ev.printReport, Ev.printReport, Ev.printReport, Ev.printReport,
       Ev.printReport] ∧
    ((mainRun enc sentence keyword).1.filter isLoadTokenizer).length = 1 ∧
    ((mainRun enc sentence keyword).1.filter isLoadModel).length = 1 ∧
    (mainRun enc sentence keyword).2 = report enc sentence keyword :=
  ⟨rfl, rfl, rfl, rfl⟩

/-- Claim C10: the run is deterministic in its inputs: with the same loaded
encoder, equal sentence and keyword strings yield the same embedding
vectors, the same step sequence, and the same printed report; in
particular `get_embedding` is a pure function of its text argument. -/
theorem run_deterministic (enc : Encoder) (s1 k1 s2 k2 : String)
    (hs : s1 = s2) (hk : k1 = k2) :
    get_embedding enc s1 = get_embedding enc s2 ∧
    mainRun enc s1 k1 = mainRun enc s2 k2 := by
  subst hs
  subst hk
  exact ⟨rfl, rfl⟩

/-- Witness for C10 at the concrete encoder `wEnc`. -/
theorem run_deterministic_witness :
    get_embedding wEnc "cat" = get_embedding wEnc "cat" ∧
    mainRun wEnc "cat" "mat" = mainRun wEnc "cat" "mat" :=
  run_deterministic wEnc "cat" "mat" "cat" "mat" rfl rfl

end BERT
